import Mathlib

/-!
Shallow embedding of the archeobot repository core: the retrieval engine in
src/rag.py (search-result formatting, response assembly, the top-level query
operation and its CLI boundary) and the ingestion pipeline in src/ingest.py
(document loading over a fixed file list, chunking). Similarity scores and
distances are modelled as rationals; the Python builtin round is modelled as
decimal rounding with ties to even. Fallible layers (the vector index call,
the filesystem) are modelled with Except and an explicit file-state function.
-/

/-- Rounding of a rational to the nearest integer with ties to even, the
convention of the Python builtin round, computed on the numerator and
denominator with integer arithmetic: f is the floor and r the nonnegative
remainder, and the fractional part r / d is compared against one half. -/
def roundHalfEven (q : ℚ) : ℤ :=
  let n := q.num
  let d := (q.den : ℤ)
  let f := Int.fdiv n d
  let r := n - f * d
  if 2 * r < d then f
  else if 2 * r > d then f + 1
  else if f % 2 = 0 then f else f + 1

/-- Python round(x, 3): decimal rounding to 3 digits, ties to even. -/
def round3 (q : ℚ) : ℚ := (roundHalfEven (q * 1000) : ℚ) / 1000

/-- Metadata of an indexed chunk as read back from the vector index in
src/rag.py. The site and source keys may be absent: the source reads them
with meta.get and a default. -/
structure HitMeta where
  site : Option String
  source : Option String
  deriving DecidableEq

/-- One raw nearest-neighbor triple returned by the vector index query in
RAGEngine.search: document text, metadata, distance. -/
structure RawResult where
  doc : String
  metadata : HitMeta
  distance : ℚ
  deriving DecidableEq

/-- One formatted search hit, the dict built in RAGEngine.search
(src/rag.py lines 61-67). -/
structure SearchHit where
  id : Nat
  content : String
  metadata : HitMeta
  similarity_score : ℚ
  distance : ℚ
  deriving DecidableEq

/-- The hit built from the raw triple at index i in RAGEngine.search:
similarity_score = round(1 - distance, 3) and distance = round(distance, 3). -/
def mkHit (i : Nat) (r : RawResult) : SearchHit :=
  { id := i
    content := r.doc
    metadata := r.metadata
    similarity_score := round3 (1 - r.distance)
    distance := round3 r.distance }

/-- The enumerate loop of RAGEngine.search, formatting raw triples from
index i onward. -/
def search_format_from (i : Nat) : List RawResult → List SearchHit
  | [] => []
  | r :: rest => mkHit i r :: search_format_from (i + 1) rest

/-- RAGEngine.search formatting step: the raw triples the index returned,
formatted in order with indices starting at 0 (src/rag.py lines 50-69). -/
def search_format (raw : List RawResult) : List SearchHit :=
  search_format_from 0 raw

/-- A source entry of the response, the dict built in
RAGEngine.generate_response (src/rag.py lines 90-94). -/
structure SourceRef where
  site : String
  source : String
  score : ℚ
  deriving DecidableEq

/-- The source entry derived from one hit: site and source from metadata with
defaults Inconnu and Document, score = the similarity score of the hit. -/
def mkSourceRef (h : SearchHit) : SourceRef :=
  { site := h.metadata.site.getD "Inconnu"
    source := h.metadata.source.getD "Document"
    score := h.similarity_score }

/-- Append a source entry only when no entry equal to it is already present,
the membership test of src/rag.py line 95. -/
def appendIfNew (acc : List SourceRef) (s : SourceRef) : List SourceRef :=
  if s ∈ acc then acc else acc ++ [s]

/-- The source-list construction loop of RAGEngine.generate_response
(src/rag.py lines 85-96). -/
def buildSources (hits : List SearchHit) : List SourceRef :=
  hits.foldl (fun acc h => appendIfNew acc (mkSourceRef h)) []

/-- Modelled from the spec: the SourceRef construction as the spec words it,
over the already-derived (site, source, score) triples - append to the list
only if no prior entry has the exact same triple, first occurrence wins.
Stated separately so the source-translated buildSources can be compared
against it. -/
def specSources (triples : List SourceRef) : List SourceRef :=
  triples.foldl appendIfNew []

/-- The structured query result of src/rag.py. The Python value is a dict;
context_results is an Option because generate_response omits that key on the
empty-context path (src/rag.py lines 74-79) while including it elsewhere. -/
structure QueryResult where
  answer : String
  sources : List SourceRef
  confidence : ℚ
  context_results : Option Nat
  deriving DecidableEq

/-- The fixed answer text of the empty-context branch of generate_response
(src/rag.py line 76). -/
def noInfoAnswer : String :=
  "Je ne dispose pas d\x27informations fiables sur ce sujet dans ma base de connaissances."

/-- The fixed template prefix of the assembled answer (src/rag.py line 103). -/
def answerTemplate : String :=
  "D\x27après les informations disponibles :\n\n"

/-- RAGEngine.generate_response (src/rag.py lines 71-113). The query argument
is accepted and unused, as in the source. -/
def generate_response (query : String) (context_results : List SearchHit) : QueryResult :=
  if context_results.isEmpty then
    { answer := noInfoAnswer
      sources := []
      confidence := 0
      context_results := none }
  else
    { answer := answerTemplate ++ String.intercalate "\n\n" (context_results.map fun r => r.content)
      sources := buildSources context_results
      confidence := round3 (((context_results.map fun r => r.similarity_score).sum) / (context_results.length : ℚ))
      context_results := some context_results.length }

/-- The fixed no-match answer text of RAGEngine.query (src/rag.py line 127). -/
def noMatchAnswer : String := "Aucune information pertinente trouvée."

/-- The no-match result dict of RAGEngine.query (src/rag.py lines 126-131). -/
def noMatchResult : QueryResult :=
  { answer := noMatchAnswer
    sources := []
    confidence := 0
    context_results := some 0 }

/-- RAGEngine.search with the fallible vector-index call made explicit: the
method has no exception handler, so an index or embedding error propagates
unchanged; on success the raw triples are formatted. -/
def searchResultE (raw : Except String (List RawResult)) : Except String (List SearchHit) :=
  match raw with
  | .error e => .error e
  | .ok r => .ok (search_format r)

/-- RAGEngine.query (src/rag.py lines 115-133) over the fallible search: the
method has no try/except, so a search error propagates unchanged; with hits it
delegates to generate_response, without hits it returns the no-match dict. -/
def queryE (question : String) (raw : Except String (List RawResult)) : Except String QueryResult :=
  match searchResultE raw with
  | .error e => .error e
  | .ok results =>
    .ok (if results.isEmpty then noMatchResult else generate_response question results)

/-- The answer display of the CLI loop in src/rag.py line 189: the answer,
truncated to 500 characters with an ellipsis when longer. -/
def cliDisplay (r : QueryResult) : String :=
  if r.answer.length > 500 then r.answer.take 500 ++ "..." else r.answer

/-- The CLI boundary of src/rag.py lines 184-200: a successful query result is
displayed; any exception is caught there and rendered as an error message. -/
def cliHandle (res : Except String QueryResult) : String :=
  match res with
  | .ok r => cliDisplay r
  | .error e => "⚠️ Erreur: " ++ e

/-- State of one configured source file: absent, present but failing to load,
or present with content. -/
inductive FileState where
  | missing
  | unreadable
  | ok (content : String)
  deriving DecidableEq

/-- A loaded document with the metadata attached in load_documents
(src/ingest.py lines 42-50). -/
structure Doc where
  content : String
  source : String
  site : String
  type : String
  date : String
  deriving DecidableEq

/-- Console events of load_documents: the success print of line 53 and the
per-document failure print of line 56. -/
inductive LogEvent where
  | loaded (file : String) (n : Nat)
  | loadError (file : String)
  deriving DecidableEq

/-- The file a log event is about. -/
def LogEvent.file : LogEvent → String
  | .loaded f _ => f
  | .loadError f => f

/-- Replace every occurrence of pat in the text by rep, the Python
str.replace, on character lists with explicit fuel. -/
def strReplaceAux (pat rep : List Char) : Nat → List Char → List Char
  | _, [] => []
  | 0, text => text
  | fuel + 1, c :: rest =>
    if !pat.isEmpty && pat.isPrefixOf (c :: rest) then
      rep ++ strReplaceAux pat rep fuel (List.drop pat.length (c :: rest))
    else c :: strReplaceAux pat rep fuel rest

/-- Python str.replace on strings. -/
def strReplace (s pat rep : String) : String :=
  String.mk (strReplaceAux pat.data rep.data s.data.length s.data)

/-- Python str.capitalize: first character uppercased, the rest lowercased. -/
def pyCapitalize (s : String) : String :=
  match s.data with
  | [] => ""
  | c :: rest => String.mk (c.toUpper :: rest.map Char.toLower)

/-- The document built for one loaded file in load_documents: content plus
source, derived site display name, fixed type tag and date tag
(src/ingest.py lines 43-50). -/
def mkDoc (file content : String) : Doc :=
  { content := content
    source := file
    site := pyCapitalize (strReplace file ".txt" "")
    type := "guide_officiel"
    date := "2024" }

/-- The fixed list of configured source filenames
(src/ingest.py lines 27-33). -/
def fileList : List String :=
  ["carthage.txt", "dougga.txt", "el_jem.txt", "kerkouane.txt", "sbeitla.txt"]

/-- The loading loop of load_documents (src/ingest.py lines 35-57) over an
explicit file list: a missing file is skipped with no output, a file that
exists but fails to load produces a per-document error event, a readable file
produces one document and a success event. -/
def loadDocsFrom (fs : String → FileState) : List String → List Doc × List LogEvent
  | [] => ([], [])
  | file :: rest =>
    match fs file with
    | .missing => loadDocsFrom fs rest
    | .unreadable =>
      ((loadDocsFrom fs rest).1, LogEvent.loadError file :: (loadDocsFrom fs rest).2)
    | .ok content =>
      (mkDoc file content :: (loadDocsFrom fs rest).1,
        LogEvent.loaded file 1 :: (loadDocsFrom fs rest).2)

/-- load_documents over the fixed configured file list. -/
def load_documents (fs : String → FileState) : List Doc × List LogEvent :=
  loadDocsFrom fs fileList

/-- Outcome of the ingestion main (src/ingest.py lines 114-147): the fatal
early return when nothing loaded, or proceeding to chunk and index the
loaded documents. -/
inductive IngestOutcome where
  | fatalNoDocuments
  | proceeded (docCount : Nat)
  deriving DecidableEq

/-- The document-availability gate of main (src/ingest.py lines 122-126):
with no loaded documents the run stops before any chunking or indexing,
otherwise the pipeline proceeds with the loaded documents. -/
def ingestMain (fs : String → FileState) : IngestOutcome :=
  if (load_documents fs).1.isEmpty then .fatalNoDocuments
  else .proceeded (load_documents fs).1.length

/-- A file state with exactly one readable file, dougga.txt, and every other
file - carthage.txt included - absent. -/
def fsOneDoc : String → FileState :=
  fun f => if f = "dougga.txt" then FileState.ok "Guide de Dougga" else FileState.missing

/-- Cons the character onto the first group of the split, starting a group
when none exists yet. -/
def consHead (c : Char) : List (List Char) → List (List Char)
  | [] => [[c]]
  | g :: gs => (c :: g) :: gs

/-- Split the text at every occurrence of the nonempty separator, with
explicit fuel bounded by the text length. -/
def splitOnAux (sep : List Char) : Nat → List Char → List (List Char)
  | _, [] => [[]]
  | 0, text => [text]
  | fuel + 1, c :: rest =>
    if !sep.isEmpty && sep.isPrefixOf (c :: rest) then
      [] :: splitOnAux sep fuel (List.drop sep.length (c :: rest))
    else consHead c (splitOnAux sep fuel rest)

/-- Split the text at every occurrence of the separator. -/
def splitOnSep (sep text : List Char) : List (List Char) :=
  splitOnAux sep text.length text

/-- Raw character slicing into windows of at most cs characters, sliding
forward by the step, with explicit fuel. -/
def rawWindowsAux (cs step : Nat) : Nat → List Char → List (List Char)
  | 0, text => [text]
  | fuel + 1, text =>
    if text.length ≤ cs then [text]
    else text.take cs :: rawWindowsAux cs step fuel (text.drop (max 1 step))

/-- Raw character slicing into windows of at most cs characters. -/
def rawWindows (cs step : Nat) (text : List Char) : List (List Char) :=
  rawWindowsAux cs step text.length text

/-- The ordered separator list of create_chunks (src/ingest.py line 66):
paragraph break, line break, sentence boundary, space, and the terminal
empty separator. -/
def sepList : List (List Char) :=
  [[Char.ofNat 10, Char.ofNat 10], [Char.ofNat 10], [Char.ofNat 46, Char.ofNat 32], [Char.ofNat 32], []]

/-- Modelled from the spec: the recursive splitting phase of the chunking
step. The splitter itself is the external RecursiveCharacterTextSplitter
configured in create_chunks (src/ingest.py lines 60-71) and its code is not
part of this repository, so it is rendered from the spec words: split the
text by the current separator; a segment still longer than chunk_size is
recursed into with the next separator; the empty separator is terminal and
falls back to raw character slicing. -/
def recSplit (cs ov : Nat) : List (List Char) → List Char → List (List Char)
  | [], text => rawWindows cs (cs - ov) text
  | sep :: rest, text =>
    if sep.isEmpty then rawWindows cs (cs - ov) text
    else (splitOnSep sep text).flatMap fun seg =>
      if seg.length ≤ cs then [seg] else recSplit cs ov rest seg

/-- Drop characters from the front of the carried window until it is at most
the overlap long and fits before the next segment inside chunk_size. -/
def shrinkAcc (ov cs segLen : Nat) : List Char → List Char
  | [] => []
  | c :: rest =>
    if rest.length + 1 > ov || rest.length + 1 + segLen > cs then
      shrinkAcc ov cs segLen rest
    else c :: rest

/-- Modelled from the spec: the window-reassembly phase of the chunking step.
Segments are packed into windows of at most chunk_size characters; when a
window closes, the next one starts from its retained tail of at most
chunk_overlap characters, so consecutive windows share overlapping context. -/
def mergeLoop (cs ov : Nat) : List (List Char) → List Char → List (List Char)
  | [], acc => if acc.isEmpty then [] else [acc]
  | seg :: rest, acc =>
    if acc.length + seg.length ≤ cs then mergeLoop cs ov rest (acc ++ seg)
    else if acc.isEmpty then mergeLoop cs ov rest seg
    else acc :: mergeLoop cs ov rest (shrinkAcc ov cs seg.length acc ++ seg)

/-- Modelled from the spec: the chunking step applied to one document text,
standing in for the external splitter invoked by create_chunks
(src/ingest.py lines 60-71) - hierarchical splitting on the ordered
separator list followed by reassembly into overlapping windows. -/
def chunkText (cs ov : Nat) (text : List Char) : List (List Char) :=
  mergeLoop cs ov (recSplit cs ov sepList text) []

/-- Fixture hit over the Carthage document, used by concrete witnesses. -/
def hitA : SearchHit :=
  { id := 0
    content := "Carthage, grande cité punique fondée par les Phéniciens"
    metadata := { site := some "Carthage", source := some "carthage.txt" }
    similarity_score := Rat.divInt 4 5
    distance := Rat.divInt 1 5 }

/-- Second fixture hit over the same Carthage document with a lower score. -/
def hitB : SearchHit :=
  { id := 1
    content := "Le site de Byrsa domine le golfe de Tunis"
    metadata := { site := some "Carthage", source := some "carthage.txt" }
    similarity_score := Rat.divInt 3 5
    distance := Rat.divInt 2 5 }

/-- A file state where el_jem.txt is readable, dougga.txt exists but fails to
load, and every other file - carthage.txt included - is absent. -/
def fsMixed : String → FileState := fun f =>
  if f = "el_jem.txt" then FileState.ok "Guide"
  else if f = "dougga.txt" then FileState.unreadable
  else FileState.missing

theorem rawWindowsAux_length_le (cs step : Nat) :
    ∀ (fuel : Nat) (text : List Char), text.length ≤ fuel + cs →
      ∀ c ∈ rawWindowsAux cs step fuel text, c.length ≤ cs := by
  intro fuel
  induction fuel with
  | zero =>
    intro text h c hc
    simp only [rawWindowsAux, List.mem_singleton] at hc
    subst hc
    simpa using h
  | succ n ih =>
    intro text h c hc
    by_cases hle : text.length ≤ cs
    · simp only [rawWindowsAux, if_pos hle, List.mem_singleton] at hc
      subst hc
      exact hle
    · simp only [rawWindowsAux, if_neg hle, List.mem_cons] at hc
      rcases hc with hc | hc
      · subst hc
        simp [List.length_take]
      · refine ih _ ?_ c hc
        have h1 : 1 ≤ max 1 step := Nat.le_max_left 1 step
        simp only [List.length_drop]
        omega

theorem rawWindows_length_le (cs step : Nat) (text : List Char) :
    ∀ c ∈ rawWindows cs step text, c.length ≤ cs :=
  rawWindowsAux_length_le cs step text.length text (by omega)

theorem recSplit_length_le (cs ov : Nat) :
    ∀ (seps : List (List Char)) (text : List Char),
      ∀ c ∈ recSplit cs ov seps text, c.length ≤ cs := by
  intro seps
  induction seps with
  | nil =>
    intro text c hc
    simp only [recSplit] at hc
    exact rawWindows_length_le cs (cs - ov) text c hc
  | cons sep rest ih =>
    intro text c hc
    by_cases hsep : sep.isEmpty
    · simp only [recSplit, if_pos hsep] at hc
      exact rawWindows_length_le cs (cs - ov) text c hc
    · simp only [recSplit, if_neg hsep, List.mem_flatMap] at hc
      obtain ⟨seg, _, hc⟩ := hc
      by_cases hlen : seg.length ≤ cs
      · simp only [if_pos hlen, List.mem_singleton] at hc
        subst hc
        exact hlen
      · simp only [if_neg hlen] at hc
        exact ih seg c hc

theorem shrinkAcc_fits (ov cs segLen : Nat) (h : segLen ≤ cs) :
    ∀ acc : List Char, (shrinkAcc ov cs segLen acc).length + segLen ≤ cs := by
  intro acc
  induction acc with
  | nil => simpa [shrinkAcc] using h
  | cons c rest ih =>
    by_cases hcond : rest.length + 1 > ov || rest.length + 1 + segLen > cs
    · simpa only [shrinkAcc, if_pos hcond] using ih
    · simp only [shrinkAcc, if_neg hcond]
      simp only [Bool.or_eq_true, decide_eq_true_eq, not_or, not_lt] at hcond
      simp only [List.length_cons]
      omega

theorem mergeLoop_length_le (cs ov : Nat) :
    ∀ (segs : List (List Char)) (acc : List Char),
      (∀ s ∈ segs, s.length ≤ cs) → acc.length ≤ cs →
      ∀ c ∈ mergeLoop cs ov segs acc, c.length ≤ cs := by
  intro segs
  induction segs with
  | nil =>
    intro acc _ hacc c hc
    simp only [mergeLoop] at hc
    by_cases he : acc.isEmpty
    · simp [he] at hc
    · simp only [if_neg he, List.mem_singleton] at hc
      subst hc
      exact hacc
  | cons seg rest ih =>
    intro acc hsegs hacc c hc
    have hseg : seg.length ≤ cs := hsegs seg (by simp)
    have hrest : ∀ s ∈ rest, s.length ≤ cs := fun s hs => hsegs s (by simp [hs])
    simp only [mergeLoop] at hc
    by_cases h1 : acc.length + seg.length ≤ cs
    · rw [if_pos h1] at hc
      exact ih (acc ++ seg) hrest (by simpa using h1) c hc
    · rw [if_neg h1] at hc
      by_cases h2 : acc.isEmpty
      · rw [if_pos h2] at hc
        exact ih seg hrest hseg c hc
      · rw [if_neg h2] at hc
        rcases List.mem_cons.mp hc with rfl | hc
        · exact hacc
        · refine ih _ hrest ?_ c hc
          have hs := shrinkAcc_fits ov cs seg.length hseg acc
          simp only [List.length_append]
          omega

/-- Claim C7: for every document text and every configuration with
chunk_size > 0 and 0 ≤ chunk_overlap < chunk_size, every chunk produced by
the chunking step has length at most chunk_size characters. The chunking
step is modelled from the spec because the configured splitter is an
external library. -/
theorem c7_chunk_length_bound (text : List Char) (cs ov : Nat)
    (hcs : 0 < cs) (hov : ov < cs) :
    ∀ c ∈ chunkText cs ov text, c.length ≤ cs := by
  intro c hc
  simp only [chunkText] at hc
  exact mergeLoop_length_le cs ov _ []
    (fun s hs => recSplit_length_le cs ov sepList text s hs) (by simp) c hc

/-- Witness for C7 at a concrete text and configuration. -/
theorem c7_chunk_length_bound_witness :
    0 < 5 ∧ 2 < 5 ∧ ∀ c ∈ chunkText 5 2 "ab cd efgh ij".data, c.length ≤ 5 :=
  ⟨by decide, by decide,
    c7_chunk_length_bound "ab cd efgh ij".data 5 2 (by decide) (by decide)⟩

theorem foldAIN_nodup :
    ∀ (l acc : List SourceRef), acc.Nodup → (List.foldl appendIfNew acc l).Nodup := by
  intro l
  induction l with
  | nil => intro acc h; simpa using h
  | cons x xs ih =>
    intro acc h
    simp only [List.foldl_cons]
    by_cases hx : x ∈ acc
    · rw [appendIfNew, if_pos hx]
      exact ih acc h
    · rw [appendIfNew, if_neg hx]
      refine ih (acc ++ [x]) ?_
      rw [List.nodup_append]
      refine ⟨h, List.nodup_singleton x, ?_⟩
      intro a ha hb
      rw [List.mem_singleton] at hb
      subst hb
      exact hx ha

theorem foldAIN_mem :
    ∀ (l acc : List SourceRef) (r : SourceRef),
      r ∈ List.foldl appendIfNew acc l ↔ r ∈ acc ∨ r ∈ l := by
  intro l
  induction l with
  | nil => intro acc r; simp
  | cons x xs ih =>
    intro acc r
    simp only [List.foldl_cons]
    by_cases hx : x ∈ acc
    · rw [appendIfNew, if_pos hx, ih]
      constructor
      · rintro (h | h)
        · exact Or.inl h
        · exact Or.inr (List.mem_cons_of_mem x h)
      · rintro (h | h)
        · exact Or.inl h
        · rcases List.mem_cons.mp h with rfl | h
          · exact Or.inl hx
          · exact Or.inr h
    · rw [appendIfNew, if_neg hx, ih]
      simp only [List.mem_append, List.mem_singleton, List.mem_cons]
      tauto

theorem foldAIN_sublist :
    ∀ (l acc : List SourceRef),
      ∃ t, List.foldl appendIfNew acc l = acc ++ t ∧ List.Sublist t l := by
  intro l
  induction l with
  | nil => intro acc; exact ⟨[], by simp, List.Sublist.refl []⟩
  | cons x xs ih =>
    intro acc
    simp only [List.foldl_cons]
    by_cases hx : x ∈ acc
    · obtain ⟨t, ht, hs⟩ := ih acc
      refine ⟨t, ?_, hs.cons x⟩
      rw [appendIfNew, if_pos hx]
      exact ht
    · obtain ⟨t, ht, hs⟩ := ih (acc ++ [x])
      refine ⟨x :: t, ?_, hs.cons₂ x⟩
      rw [appendIfNew, if_neg hx, ht]
      simp

/-- Claim C2: the sources list of the assembled result holds a
(site, source, score) entry for a hit only if no earlier entry is the exact
same triple, in first-occurrence order: the source-translated construction
equals the spec-worded one, produces no duplicate entries, holds exactly the
triples derived from the hits, and preserves their order as a subsequence of
the per-hit triple list. -/
theorem c2_sources_dedup (hits : List SearchHit) :
    buildSources hits = specSources (hits.map mkSourceRef) ∧
    (buildSources hits).Nodup ∧
    (∀ r, r ∈ buildSources hits ↔ r ∈ hits.map mkSourceRef) ∧
    List.Sublist (buildSources hits) (hits.map mkSourceRef) := by
  have heq : buildSources hits = List.foldl appendIfNew [] (hits.map mkSourceRef) := by
    rw [buildSources, List.foldl_map]
  refine ⟨by rw [heq, specSources], ?_, ?_, ?_⟩
  · rw [heq]
    exact foldAIN_nodup (hits.map mkSourceRef) [] List.nodup_nil
  · intro r
    rw [heq, foldAIN_mem]
    simp
  · obtain ⟨t, ht, hs⟩ := foldAIN_sublist (hits.map mkSourceRef) []
    rw [heq, ht]
    simpa using hs

theorem search_format_from_scores :
    ∀ (raw : List RawResult) (i : Nat),
      (search_format_from i raw).map (fun h => h.similarity_score)
        = raw.map (fun r => round3 (1 - r.distance)) := by
  intro raw
  induction raw with
  | nil => intro i; rfl
  | cons r rest ih => intro i; simp [search_format_from, mkHit, ih]

/-- Claim C6: every hit returned by the search operation carries a similarity
score equal to 1 minus the raw distance reported by the vector index, rounded
to 3 decimal digits, hit by hit in order. -/
theorem c6_similarity_from_distance (raw : List RawResult) :
    (search_format raw).map (fun h => h.similarity_score)
      = raw.map (fun r => round3 (1 - r.distance)) :=
  search_format_from_scores raw 0

/-- Claim C1: for every query result assembled from a non-empty list of
retrieved hits, the confidence field equals the arithmetic mean of the hits
similarity scores, rounded to 3 decimal digits. -/
theorem c1_confidence_mean (q : String) (hits : List SearchHit) (h : hits ≠ []) :
    (generate_response q hits).confidence
      = round3 (((hits.map fun r => r.similarity_score).sum) / (hits.length : ℚ)) := by
  cases hits with
  | nil => exact absurd rfl h
  | cons a l => rfl

/-- Witness for C1 at two concrete hits. -/
theorem c1_confidence_mean_witness :
    ([hitA, hitB] : List SearchHit) ≠ [] ∧
    (generate_response "Carthage" [hitA, hitB]).confidence
      = round3 ((([hitA, hitB].map fun r => r.similarity_score).sum)
          / (([hitA, hitB] : List SearchHit).length : ℚ)) :=
  ⟨List.cons_ne_nil hitA [hitB], c1_confidence_mean "Carthage" [hitA, hitB] (List.cons_ne_nil hitA [hitB])⟩

/-- Claim C3: when the search step returns no hits, the top-level query
operation returns a normal (non-error) result with the fixed no-match answer
text, an empty sources list, confidence 0.0 and context_results 0. -/
theorem c3_no_hits_result (q : String) (raw : List RawResult)
    (h : search_format raw = []) :
    queryE q (Except.ok raw)
      = Except.ok { answer := noMatchAnswer
                    sources := []
                    confidence := 0
                    context_results := some 0 } := by
  simp [queryE, searchResultE, h, noMatchResult]

/-- Witness for C3 at the empty raw result list. -/
theorem c3_no_hits_result_witness :
    search_format [] = [] ∧
    queryE "Atlantide" (Except.ok [])
      = Except.ok { answer := noMatchAnswer
                    sources := []
                    confidence := 0
                    context_results := some 0 } :=
  ⟨rfl, c3_no_hits_result "Atlantide" [] rfl⟩

/-- Claim C8: the assembled answer text for a non-empty hit list equals the
fixed template prefix followed by the hit contents in returned order with a
blank line between consecutive contents. -/
theorem c8_answer_concatenation (q : String) (hits : List SearchHit) (h : hits ≠ []) :
    (generate_response q hits).answer
      = "D\x27après les informations disponibles :\n\n"
          ++ String.intercalate "\n\n" (hits.map fun r => r.content) := by
  cases hits with
  | nil => exact absurd rfl h
  | cons a l => rfl

/-- Witness for C8 at two concrete hits. -/
theorem c8_answer_concatenation_witness :
    ([hitA, hitB] : List SearchHit) ≠ [] ∧
    (generate_response "Carthage" [hitA, hitB]).answer
      = "D\x27après les informations disponibles :\n\n"
          ++ String.intercalate "\n\n" ([hitA, hitB].map fun r => r.content) :=
  ⟨List.cons_ne_nil hitA [hitB], c8_answer_concatenation "Carthage" [hitA, hitB] (List.cons_ne_nil hitA [hitB])⟩

/-- Claim C9: generate_response called directly with an empty context list
returns a result carrying only the answer, sources and confidence fields -
context_results is absent, modelled as none - and its fixed answer text
differs from the fixed no-hit text of the top-level query operation. -/
theorem c9_empty_context_shape (q : String) :
    generate_response q []
      = { answer := noInfoAnswer
          sources := []
          confidence := 0
          context_results := none } ∧
    noInfoAnswer ≠ noMatchAnswer :=
  ⟨rfl, by decide⟩

theorem errMsg_ne_noMatch (e : String) : "⚠️ Erreur: " ++ e ≠ noMatchAnswer := by
  obtain ⟨l⟩ := e
  intro h
  have h3 : (("⚠️ Erreur: " ++ String.mk l).data).head? = (noMatchAnswer.data).head? := by
    rw [h]
  have h4 : (("⚠️ Erreur: " ++ String.mk l).data).head? = some '⚠' := rfl
  have h5 : (noMatchAnswer.data).head? = some 'A' := rfl
  rw [h4, h5] at h3
  exact absurd h3 (by decide)

/-- Counterexample to claim C4 as stated: an error from the embedding or
index layer is not converted into a user-facing error result by the
top-level query operation - query has no exception handler, so the error
propagates out of it unchanged instead of being returned as a result. -/
theorem c4_counterexample :
    queryE "Carthage" (Except.error "embedding backend failure")
      = Except.error "embedding backend failure" ∧
    (queryE "Carthage" (Except.error "embedding backend failure")).isOk = false :=
  ⟨rfl, rfl⟩

/-- Claim C4 as amended: embedding and index layer errors propagate
unswallowed through search and through the top-level query operation, which
performs no conversion; the CLI caller outside the engine converts every such
failure into a user-facing error message distinct from the displayed no-match
result, so callers can distinguish a system failure from an empty match. -/
theorem c4_error_propagation_amended (q e : String) :
    searchResultE (Except.error e) = Except.error e ∧
    queryE q (Except.error e) = Except.error e ∧
    cliHandle (queryE q (Except.error e)) = "⚠️ Erreur: " ++ e ∧
    cliHandle (queryE q (Except.error e)) ≠ cliHandle (Except.ok noMatchResult) := by
  refine ⟨rfl, rfl, rfl, ?_⟩
  have hd : cliHandle (Except.ok noMatchResult) = noMatchAnswer := by
    show cliDisplay noMatchResult = noMatchAnswer
    rw [cliDisplay, if_neg (by decide)]
    rfl
  rw [hd]
  show "⚠️ Erreur: " ++ e ≠ noMatchAnswer
  exact errMsg_ne_noMatch e

theorem ldf_congr :
    ∀ (l : List String) (fs fs' : String → FileState),
      (∀ f ∈ l, fs f = fs' f) → loadDocsFrom fs l = loadDocsFrom fs' l := by
  intro l
  induction l with
  | nil => intro fs fs' _; rfl
  | cons file rest ih =>
    intro fs fs' h
    have hfile : fs file = fs' file := h file (by simp)
    have hrest : loadDocsFrom fs rest = loadDocsFrom fs' rest :=
      ih fs fs' (fun f hf => h f (by simp [hf]))
    simp only [loadDocsFrom, hfile, hrest]

theorem ldf_source_mem :
    ∀ (l : List String) (fs : String → FileState),
      ∀ d ∈ (loadDocsFrom fs l).1, d.source ∈ l := by
  intro l
  induction l with
  | nil => intro fs d hd; simp [loadDocsFrom] at hd
  | cons file rest ih =>
    intro fs d hd
    cases hfile : fs file with
    | missing =>
      simp only [loadDocsFrom, hfile] at hd
      exact List.mem_cons_of_mem file (ih fs d hd)
    | unreadable =>
      simp only [loadDocsFrom, hfile] at hd
      exact List.mem_cons_of_mem file (ih fs d hd)
    | ok content =>
      simp only [loadDocsFrom, hfile, List.mem_cons] at hd
      rcases hd with rfl | hd
      · simp [mkDoc]
      · exact List.mem_cons_of_mem file (ih fs d hd)

theorem ldf_missing_no_event :
    ∀ (l : List String) (fs : String → FileState) (f : String),
      fs f = FileState.missing →
      ∀ ev ∈ (loadDocsFrom fs l).2, LogEvent.file ev ≠ f := by
  intro l
  induction l with
  | nil => intro fs f _ ev hev; simp [loadDocsFrom] at hev
  | cons file rest ih =>
    intro fs f hf ev hev
    cases hfile : fs file with
    | missing =>
      simp only [loadDocsFrom, hfile] at hev
      exact ih fs f hf ev hev
    | unreadable =>
      simp only [loadDocsFrom, hfile, List.mem_cons] at hev
      rcases hev with rfl | hev
      · simp only [LogEvent.file]
        rintro rfl
        rw [hf] at hfile
        exact FileState.noConfusion hfile
      · exact ih fs f hf ev hev
    | ok content =>
      simp only [loadDocsFrom, hfile, List.mem_cons] at hev
      rcases hev with rfl | hev
      · simp only [LogEvent.file]
        rintro rfl
        rw [hf] at hfile
        exact FileState.noConfusion hfile
      · exact ih fs f hf ev hev

theorem ldf_not_ok_no_doc :
    ∀ (l : List String) (fs : String → FileState) (f : String),
      (∀ c, fs f ≠ FileState.ok c) →
      ∀ d ∈ (loadDocsFrom fs l).1, d.source ≠ f := by
  intro l
  induction l with
  | nil => intro fs f _ d hd; simp [loadDocsFrom] at hd
  | cons file rest ih =>
    intro fs f hf d hd
    cases hfile : fs file with
    | missing =>
      simp only [loadDocsFrom, hfile] at hd
      exact ih fs f hf d hd
    | unreadable =>
      simp only [loadDocsFrom, hfile] at hd
      exact ih fs f hf d hd
    | ok content =>
      simp only [loadDocsFrom, hfile, List.mem_cons] at hd
      rcases hd with rfl | hd
      · simp only [mkDoc]
        rintro rfl
        exact hf content hfile
      · exact ih fs f hf d hd

theorem ldf_unreadable_event :
    ∀ (l : List String) (fs : String → FileState) (f : String),
      f ∈ l → fs f = FileState.unreadable →
      LogEvent.loadError f ∈ (loadDocsFrom fs l).2 := by
  intro l
  induction l with
  | nil => intro fs f hf _; simp at hf
  | cons file rest ih =>
    intro fs f hf hun
    rcases List.mem_cons.mp hf with rfl | hf
    · simp only [loadDocsFrom, hun]
      exact List.mem_cons_self _ _
    · cases hfile : fs file with
      | missing => simpa only [loadDocsFrom, hfile] using ih fs f hf hun
      | unreadable =>
        simp only [loadDocsFrom, hfile]
        exact List.mem_cons_of_mem _ (ih fs f hf hun)
      | ok content =>
        simp only [loadDocsFrom, hfile]
        exact List.mem_cons_of_mem _ (ih fs f hf hun)

theorem ldf_ok_doc :
    ∀ (l : List String) (fs : String → FileState) (f c : String),
      f ∈ l → fs f = FileState.ok c →
      mkDoc f c ∈ (loadDocsFrom fs l).1 := by
  intro l
  induction l with
  | nil => intro fs f c hf _; simp at hf
  | cons file rest ih =>
    intro fs f c hf hok
    rcases List.mem_cons.mp hf with rfl | hf
    · simp only [loadDocsFrom, hok]
      exact List.mem_cons_self _ _
    · cases hfile : fs file with
      | missing => simpa only [loadDocsFrom, hfile] using ih fs f c hf hok
      | unreadable =>
        simp only [loadDocsFrom, hfile]
        exact ih fs f c hf hok
      | ok content =>
        simp only [loadDocsFrom, hfile]
        exact List.mem_cons_of_mem _ (ih fs f c hf hok)

/-- Counterexample to claim C5 as stated: with carthage.txt absent and
dougga.txt readable, ingestion continues but records no per-document failure
for the missing file - the log holds only the success entry for dougga.txt,
so a missing source file is skipped silently, not recorded as a failure. -/
theorem c5_missing_not_logged_counterexample :
    fsOneDoc "carthage.txt" = FileState.missing ∧
    (load_documents fsOneDoc).2 = [LogEvent.loaded "dougga.txt" 1] ∧
    (∀ ev ∈ (load_documents fsOneDoc).2, LogEvent.file ev ≠ "carthage.txt") ∧
    (load_documents fsOneDoc).1 ≠ [] := by
  refine ⟨rfl, rfl, ?_, ?_⟩
  · decide
  · decide

/-- Claim C5 as amended: ingestion skips each missing source file silently,
recording no per-document failure for it (only a file that exists and fails
to load is recorded as a per-document failure), and continues loading the
remaining documents; if no document at all is loadable the run is fatal and
nothing is indexed, reported distinctly from partial success. -/
theorem c5_ingestion_failure_policy_amended (fs : String → FileState) :
    (∀ f, fs f = FileState.missing →
      (∀ ev ∈ (load_documents fs).2, LogEvent.file ev ≠ f) ∧
      (∀ d ∈ (load_documents fs).1, d.source ≠ f)) ∧
    (∀ f, f ∈ fileList → fs f = FileState.unreadable →
      LogEvent.loadError f ∈ (load_documents fs).2 ∧
      (∀ d ∈ (load_documents fs).1, d.source ≠ f)) ∧
    (∀ f c, f ∈ fileList → fs f = FileState.ok c →
      mkDoc f c ∈ (load_documents fs).1) ∧
    ((load_documents fs).1 = [] → ingestMain fs = IngestOutcome.fatalNoDocuments) ∧
    ((load_documents fs).1 ≠ [] →
      ingestMain fs = IngestOutcome.proceeded (load_documents fs).1.length ∧
      IngestOutcome.proceeded (load_documents fs).1.length ≠ IngestOutcome.fatalNoDocuments) := by
  refine ⟨?_, ?_, ?_, ?_, ?_⟩
  · intro f hf
    refine ⟨ldf_missing_no_event fileList fs f hf, ?_⟩
    refine ldf_not_ok_no_doc fileList fs f ?_
    intro c hc
    rw [hf] at hc
    exact FileState.noConfusion hc
  · intro f hmem hun
    refine ⟨ldf_unreadable_event fileList fs f hmem hun, ?_⟩
    refine ldf_not_ok_no_doc fileList fs f ?_
    intro c hc
    rw [hun] at hc
    exact FileState.noConfusion hc
  · intro f c hmem hok
    exact ldf_ok_doc fileList fs f c hmem hok
  · intro h
    rw [ingestMain, if_pos]
    rw [h]
    rfl
  · intro h
    constructor
    · rw [ingestMain, if_neg]
      intro hcontra
      rcases hl : (load_documents fs).1 with _ | ⟨d, ds⟩
      · exact h hl
      · rw [hl] at hcontra
        exact Bool.noConfusion hcontra
    · intro hcontra
      exact IngestOutcome.noConfusion hcontra

/-- Witness for the amended C5 at a concrete file state with a missing file,
an unreadable file and a readable file. -/
theorem c5_ingestion_failure_policy_amended_witness :
    (∀ ev ∈ (load_documents fsMixed).2, LogEvent.file ev ≠ "carthage.txt") ∧
    LogEvent.loadError "dougga.txt" ∈ (load_documents fsMixed).2 ∧
    mkDoc "el_jem.txt" "Guide" ∈ (load_documents fsMixed).1 ∧
    ingestMain fsMixed = IngestOutcome.proceeded (load_documents fsMixed).1.length :=
  ⟨((c5_ingestion_failure_policy_amended fsMixed).1 "carthage.txt" rfl).1,
    ((c5_ingestion_failure_policy_amended fsMixed).2.1 "dougga.txt" (by decide) rfl).1,
    (c5_ingestion_failure_policy_amended fsMixed).2.2.1 "el_jem.txt" "Guide" (by decide) rfl,
    (((c5_ingestion_failure_policy_amended fsMixed).2.2.2.2 (by decide))).1⟩

/-- Claim C10: document loading only ever attempts the five fixed filenames;
the loaded documents and the log are unchanged under any change of the
filesystem outside those five names, and every loaded document derives from
one of them, so any other file present in the source directory is never
loaded, chunked or indexed. -/
theorem c10_fixed_filenames (fs fs' : String → FileState)
    (h : ∀ f ∈ fileList, fs f = fs' f) :
    load_documents fs = load_documents fs' ∧
    ∀ d ∈ (load_documents fs).1, d.source ∈ fileList :=
  ⟨ldf_congr fileList fs fs' h, fun d hd => ldf_source_mem fileList fs d hd⟩

/-- Witness for C10 at the all-missing file state. -/
theorem c10_fixed_filenames_witness :
    load_documents (fun _ => FileState.missing) = load_documents (fun _ => FileState.missing) ∧
    ∀ d ∈ (load_documents (fun _ => FileState.missing)).1, d.source ∈ fileList :=
  c10_fixed_filenames (fun _ => FileState.missing) (fun _ => FileState.missing)
    (fun _ _ => rfl)

/-- Witness for C2 at two concrete hits sharing one triple. -/
theorem c2_sources_dedup_witness :
    buildSources [hitA, hitB] = specSources ([hitA, hitB].map mkSourceRef) ∧
    (buildSources [hitA, hitB]).Nodup ∧
    (∀ r, r ∈ buildSources [hitA, hitB] ↔ r ∈ [hitA, hitB].map mkSourceRef) ∧
    List.Sublist (buildSources [hitA, hitB]) ([hitA, hitB].map mkSourceRef) :=
  c2_sources_dedup [hitA, hitB]

/-- Witness for the amended C4 at a concrete query and error. -/
theorem c4_error_propagation_amended_witness :
    searchResultE (Except.error "index unavailable") = Except.error "index unavailable" ∧
    queryE "Carthage" (Except.error "index unavailable") = Except.error "index unavailable" ∧
    cliHandle (queryE "Carthage" (Except.error "index unavailable"))
      = "⚠️ Erreur: " ++ "index unavailable" ∧
    cliHandle (queryE "Carthage" (Except.error "index unavailable"))
      ≠ cliHandle (Except.ok noMatchResult) :=
  c4_error_propagation_amended "Carthage" "index unavailable"

/-- Witness for C6 at a concrete raw result list. -/
theorem c6_similarity_from_distance_witness :
    (search_format ([{ doc := "Amphithéâtre antique", metadata := { site := some "El_jem", source := some "el_jem.txt" }, distance := Rat.divInt 1 5 }] : List RawResult)).map (fun h => h.similarity_score)
      = ([{ doc := "Amphithéâtre antique", metadata := { site := some "El_jem", source := some "el_jem.txt" }, distance := Rat.divInt 1 5 }] : List RawResult).map (fun r => round3 (1 - r.distance)) :=
  c6_similarity_from_distance _

/-- Witness for C9 at a concrete query string. -/
theorem c9_empty_context_shape_witness :
    generate_response "Carthage" []
      = { answer := noInfoAnswer
          sources := []
          confidence := 0
          context_results := none } ∧
    noInfoAnswer ≠ noMatchAnswer :=
  c9_empty_context_shape "Carthage"
